import Mathlib

/-!
# Verification of the TDA Sudoku-grid checker

Shallow embedding of the two C++ source files of the repository:

* `src/unnamed/part_000` — `print_board`, `check_row`, `check_col`,
  `check_box`, `print_box`, and a `main` with a concrete 9×9 board literal;
* `src/main.cpp` — a second `print_board` (textually identical printer) and
  its own `main`.

The C array `int x[9][9]` is modelled as a total function
`Grid = Int → Int → Int`: reading inside `[0,9)×[0,9)` is the array, reading
outside models the unchecked (undefined-behaviour) access that the code
performs for out-of-range indices.  `std::cout` diagnostics are modelled as
the list of lines written; each checker additionally records the list of
cells it examines (`visited`, one entry per loop iteration that reads a
cell) and the trace of values inserted into its `std::set<int>` scratch set
(`inserted`).  The `std::set<int> num` itself is modelled as a `List Int`
used only through membership and insertion of values not yet present, which
matches set semantics exactly.
-/

def Grid : Type := Int → Int → Int

/-- Result of one checker call: the returned boolean, the lines written to
standard output, the cells examined in order, and the values inserted into
the local seen-set in order. -/
structure CheckResult where
  ok : Bool
  out : List String
  visited : List (Int × Int)
  inserted : List Int
  deriving DecidableEq, Repr

/-- The common loop body of `check_row` (src/unnamed/part_000 lines 21–30)
and `check_col` (lines 36–44), scanning a list of cells:
`if (x[r][c] == 0) continue;` — skip zeros;
`if (num.find(x[r][c]) != num.end()) { cout << "dupe" << endl; return false; }`
— first duplicate prints one line and returns immediately;
`else num.insert(x[r][c]);` — otherwise record the value. -/
def unitGo (x : Grid) : List (Int × Int) → List Int → CheckResult
  | [], _ => ⟨true, [], [], []⟩
  | (r, c) :: rest, num =>
    if x r c = 0 then
      let res := unitGo x rest num
      ⟨res.ok, res.out, (r, c) :: res.visited, res.inserted⟩
    else if x r c ∈ num then
      ⟨false, ["dupe"], [(r, c)], []⟩
    else
      let res := unitGo x rest (x r c :: num)
      ⟨res.ok, res.out, (r, c) :: res.visited, x r c :: res.inserted⟩

/-- The cells `x[rowNum][0] … x[rowNum][8]` read by `check_row`, left to
right. -/
def rowCells (rowNum : Int) : List (Int × Int) :=
  (List.range 9).map fun (c : Nat) => (rowNum, (c : Int))

/-- The cells `x[0][colNum] … x[8][colNum]` read by `check_col`, top to
bottom. -/
def colCells (colNum : Int) : List (Int × Int) :=
  (List.range 9).map fun (r : Nat) => ((r : Int), colNum)

/-- `check_row` from src/unnamed/part_000 lines 19–32: scan row `rowNum`
left to right with an initially empty seen-set. -/
def check_row (x : Grid) (rowNum : Int) : CheckResult :=
  unitGo x (rowCells rowNum) []

/-- `check_col` from src/unnamed/part_000 lines 34–46: scan column `colNum`
top to bottom with an initially empty seen-set. -/
def check_col (x : Grid) (colNum : Int) : CheckResult :=
  unitGo x (colCells colNum) []

/-- The box-index expression `rows/3 * 3 + cols/3` of
src/unnamed/part_000 line 55 (and line 76 in `print_box`); C integer
division on the in-range non-negative operands agrees with `Int` division. -/
def boxIdx (r c : Int) : Int :=
  r / 3 * 3 + c / 3

/-- The 81 cells `(rows, cols)` visited by the nested
`for (rows …) for (cols …)` loops, in row-major order. -/
def allCells : List (Int × Int) :=
  (List.range 9).flatMap fun (r : Nat) => (List.range 9).map fun (c : Nat) => ((r : Int), (c : Int))

/-- One iteration of the `while (boxNum != 9)` loop of `check_box`
(src/unnamed/part_000 lines 52–65): scan the whole grid; skip zeros
(line 54); for a cell of the current box, a repeated value prints two
diagnostic lines but does not return (`//return false;` is commented out,
line 59) and is not inserted; a new value is inserted (line 61). -/
def boxGo (x : Grid) (b : Int) : List (Int × Int) → List Int → CheckResult
  | [], _ => ⟨true, [], [], []⟩
  | (r, c) :: rest, num =>
    if x r c = 0 then
      let res := boxGo x b rest num
      ⟨res.ok, res.out, (r, c) :: res.visited, res.inserted⟩
    else if boxIdx r c = b then
      if x r c ∈ num then
        let res := boxGo x b rest num
        ⟨res.ok,
          ("dupe in box-" ++ toString b) ::
            ("\tdupe for number: " ++ toString (x r c)) :: res.out,
          (r, c) :: res.visited, res.inserted⟩
      else
        let res := boxGo x b rest (x r c :: num)
        ⟨res.ok, res.out, (r, c) :: res.visited, x r c :: res.inserted⟩
    else
      let res := boxGo x b rest num
      ⟨res.ok, res.out, (r, c) :: res.visited, res.inserted⟩

/-- `check_box` from src/unnamed/part_000 lines 48–70: the
`while (boxNum != 9)` loop runs the full-grid scan once for each
`boxNum = 0 … 8`; `num.clear()` (line 66) empties the seen-set between
boxes, so every per-box scan starts from the empty set; the function
always returns `true` (line 69). -/
def check_box (x : Grid) : CheckResult :=
  let rs := (List.range 9).map fun b => boxGo x (Int.ofNat b) allCells []
  ⟨true, (rs.map CheckResult.out).flatten,
    (rs.map CheckResult.visited).flatten,
    (rs.map CheckResult.inserted).flatten⟩

/-- The cells of box `b`, in the row-major order `check_box` meets them. -/
def boxCells (b : Int) : List (Int × Int) :=
  allCells.filter fun p => decide (boxIdx p.1 p.2 = b)

/-- The non-zero values of box `b`, in the order `check_box` meets them. -/
def boxVals (x : Grid) (b : Int) : List Int :=
  ((boxCells b).map fun p => x p.1 p.2).filter fun v => decide (v ≠ 0)

/-- The diagnostic lines `check_box` writes while scanning box `b`. -/
def boxOut (x : Grid) (b : Int) : List String :=
  (boxGo x b allCells []).out

/-- Values repeated relative to the values already seen, in scan order:
a value already seen is reported (and, as in the code, not re-inserted);
a new value is added to the seen list. -/
def dupScan : List Int → List Int → List Int
  | [], _ => []
  | v :: vs, seen =>
    if v ∈ seen then v :: dupScan vs seen else dupScan vs (v :: seen)

/-- Values inserted into the seen-set by a scan of the given values. -/
def insScan : List Int → List Int → List Int
  | [], _ => []
  | v :: vs, seen =>
    if v ∈ seen then insScan vs seen else v :: insScan vs (v :: seen)

/-- The two diagnostic lines printed for one duplicate value `v`
found in box `b` (src/unnamed/part_000 lines 57–58). -/
def boxDupLines (b : Int) (v : Int) : List String :=
  [("dupe in box-" ++ toString b), ("\tdupe for number: " ++ toString v)]

/-- `check_row`/`check_col` verdict, output and insertion trace as a
function of the value sequence only (after the zero-skip of the code). -/
def valScan : List Int → List Int → Bool × List String × List Int
  | [], _ => (true, [], [])
  | v :: vs, num =>
    if v ∈ num then (false, ["dupe"], [])
    else
      let res := valScan vs (v :: num)
      (res.1, res.2.1, v :: res.2.2)

/-- Position `j` of a row holds a duplicate: the cell is non-zero and its
value already occurred at an earlier column of the same row. -/
def dupAtRow (x : Grid) (r : Int) (j : Nat) : Prop :=
  x r (j : Int) ≠ 0 ∧ ∃ i, i < j ∧ x r (i : Int) = x r (j : Int)

/-- Position `j` of a column holds a duplicate: the cell is non-zero and its
value already occurred at an earlier row of the same column. -/
def dupAtCol (x : Grid) (c : Int) (j : Nat) : Prop :=
  x (j : Int) c ≠ 0 ∧ ∃ i, i < j ∧ x (i : Int) c = x (j : Int) c

/-- The non-zero values of row `r` in scan order. -/
def rowNonzeroVals (x : Grid) (r : Int) : List Int :=
  ((List.range 9).map fun (c : Nat) => x r (c : Int)).filter fun v => decide (v ≠ 0)

/-- The non-zero values of column `c` in scan order. -/
def colNonzeroVals (x : Grid) (c : Int) : List Int :=
  ((List.range 9).map fun (r : Nat) => x (r : Int) c).filter fun v => decide (v ≠ 0)

/-- A cell address inside the `int[9][9]` array. -/
def inBounds (p : Int × Int) : Prop :=
  0 ≤ p.1 ∧ p.1 < 9 ∧ 0 ≤ p.2 ∧ p.2 < 9

instance : DecidablePred inBounds := fun p => by
  unfold inBounds; infer_instance

/-- The board literal of `main` in src/unnamed/part_000 lines 86–96. -/
def boardRows : List (List Int) :=
  [[1,2,3,4,5,6,7,8,1],
   [2,0,0,0,0,0,0,1,0],
   [3,0,0,0,0,0,1,0,0],
   [4,0,0,0,0,1,0,0,0],
   [5,0,0,0,1,0,0,0,0],
   [6,0,0,1,0,0,0,0,0],
   [7,0,1,0,0,0,0,0,0],
   [8,1,0,0,0,0,0,0,0],
   [1,0,0,0,0,0,0,0,0]]

/-- The in-range part of the board of src/unnamed/part_000 as a `Grid`
(reads outside the array are modelled as 0; no theorem depends on them). -/
def board : Grid := fun r c =>
  (boardRows.getD r.toNat []).getD c.toNat 0

/-- The all-empty grid. -/
def zeroGrid : Grid := fun _ _ => 0

/-- A grid with a single non-zero cell, used to compare value sequences. -/
def oneAtRow0Col3 : Grid := fun r c =>
  if r = 0 ∧ c = 3 then 1 else 0

/-- `board` with everything outside row 0 erased (agrees with `board` on
row 0). -/
def rowOnlyBoard : Grid := fun r c =>
  if r = 0 then board r c else 0

/-- `board` with everything outside column 0 erased (agrees with `board` on
column 0). -/
def colOnlyBoard : Grid := fun r c =>
  if c = 0 then board r c else 0

/-- The horizontal separator line written by
`cout << "-------------------------" << endl` (src/unnamed/part_000
lines 7 and 16). -/
def sepLine : String := "-------------------------"

/-- The chunks written while printing row `r` of the grid
(src/unnamed/part_000 lines 9–13): `"| "` before columns 0, 3, 6, then the
cell value followed by a space, and a closing `"|"` before the newline. -/
def rowChunks (x : Grid) (r : Int) : List String :=
  ((List.range 9).flatMap fun (c : Nat) =>
    (if c % 3 == 0 then ["| "] else []) ++ [toString (x r (c : Int)) ++ " "]) ++ ["|"]

/-- The content line printed for row `r`. -/
def rowLine (x : Grid) (r : Int) : String :=
  String.join (rowChunks x r)

/-- `print_board` from src/unnamed/part_000 lines 4–17, as the list of
lines written to standard output: a separator before rows 0, 3, 6 (row
index divisible by 3), one content line per row, and a trailing
separator. -/
def print_board (x : Grid) : List String :=
  ((List.range 9).flatMap fun (r : Nat) =>
    (if r % 3 == 0 then [sepLine] else []) ++ [rowLine x (r : Int)]) ++ [sepLine]

/-- The separator line of the printer in src/main.cpp (lines 7 and 16). -/
def sepLineMain : String := "-------------------------"

/-- The chunks written for row `r` by the printer in src/main.cpp
(lines 9–13). -/
def rowChunksMain (x : Grid) (r : Int) : List String :=
  ((List.range 9).flatMap fun (c : Nat) =>
    (if c % 3 == 0 then ["| "] else []) ++ [toString (x r (c : Int)) ++ " "]) ++ ["|"]

/-- The content line printed for row `r` by the printer in src/main.cpp. -/
def rowLineMain (x : Grid) (r : Int) : String :=
  String.join (rowChunksMain x r)

/-- `print_board` from src/main.cpp lines 4–17, transliterated
independently of the src/unnamed/part_000 copy. -/
def print_board_main (x : Grid) : List String :=
  ((List.range 9).flatMap fun (r : Nat) =>
    (if r % 3 == 0 then [sepLineMain] else []) ++ [rowLineMain x (r : Int)]) ++ [sepLineMain]

/-- Number of vertical-bar characters in a string. -/
def barCount (s : String) : Nat :=
  s.data.count '|'

/-! ## Helper lemmas -/

theorem nat_exists_min {P : Nat → Prop} (h : ∃ n, P n) :
    ∃ n, P n ∧ ∀ m, m < n → ¬ P m := by
  obtain ⟨n, hn⟩ := h
  induction n using Nat.strong_induction_on with
  | _ n ih =>
    by_cases hex : ∃ m, m < n ∧ P m
    · obtain ⟨m, hm, hPm⟩ := hex
      exact ih m hm hPm
    · exact ⟨n, hn, fun m hm hPm => hex ⟨m, hm, hPm⟩⟩

theorem unitGo_congr (x x' : Grid) :
    ∀ (cells : List (Int × Int)) (num : List Int),
      (∀ p ∈ cells, x p.1 p.2 = x' p.1 p.2) →
      unitGo x cells num = unitGo x' cells num := by
  intro cells
  induction cells with
  | nil => intro num _; rfl
  | cons p rest ih =>
    intro num hagree
    obtain ⟨r, c⟩ := p
    have hval : x r c = x' r c := hagree (r, c) (List.mem_cons_self _ _)
    have hrest : ∀ q ∈ rest, x q.1 q.2 = x' q.1 q.2 :=
      fun q hq => hagree q (List.mem_cons_of_mem _ hq)
    simp only [unitGo, hval, ih _ hrest]

theorem unitGo_valScan (x : Grid) :
    ∀ (cells : List (Int × Int)) (num : List Int),
      ((unitGo x cells num).ok, (unitGo x cells num).out, (unitGo x cells num).inserted) =
        valScan ((cells.map fun p => x p.1 p.2).filter fun v => decide (v ≠ 0)) num := by
  intro cells
  induction cells with
  | nil => intro num; rfl
  | cons p rest ih =>
    intro num
    obtain ⟨r, c⟩ := p
    by_cases h0 : x r c = 0
    · simp only [unitGo, if_pos h0, List.map_cons, List.filter_cons, h0]
      simpa using ih num
    · by_cases hmem : x r c ∈ num
      · simp only [unitGo, if_neg h0, if_pos hmem, List.map_cons, List.filter_cons]
        have hd : (decide (x r c ≠ 0)) = true := by simp [h0]
        simp only [hd, if_pos, valScan, if_pos hmem]
      · simp only [unitGo, if_neg h0, if_neg hmem, List.map_cons, List.filter_cons]
        have hd : (decide (x r c ≠ 0)) = true := by simp [h0]
        simp only [hd, if_pos, valScan, if_neg hmem]
        rw [← ih (x r c :: num)]

theorem unitGo_visited_subset (x : Grid) :
    ∀ (cells : List (Int × Int)) (num : List Int),
      ∀ p ∈ (unitGo x cells num).visited, p ∈ cells := by
  intro cells
  induction cells with
  | nil => intro num p hp; simp [unitGo] at hp
  | cons q rest ih =>
    intro num p hp
    obtain ⟨r, c⟩ := q
    by_cases h0 : x r c = 0
    · simp only [unitGo, if_pos h0] at hp
      rcases List.mem_cons.mp hp with h | h
      · simp [h]
      · exact List.mem_cons_of_mem _ (ih num p h)
    · by_cases hmem : x r c ∈ num
      · simp only [unitGo, if_neg h0, if_pos hmem] at hp
        simp only [List.mem_singleton] at hp
        simp [hp]
      · simp only [unitGo, if_neg h0, if_neg hmem] at hp
        rcases List.mem_cons.mp hp with h | h
        · simp [h]
        · exact List.mem_cons_of_mem _ (ih _ p h)

theorem unitGo_visited_length (x : Grid) :
    ∀ (cells : List (Int × Int)) (num : List Int),
      (unitGo x cells num).visited.length ≤ cells.length := by
  intro cells
  induction cells with
  | nil => intro num; simp [unitGo]
  | cons q rest ih =>
    intro num
    obtain ⟨r, c⟩ := q
    by_cases h0 : x r c = 0
    · simp only [unitGo, if_pos h0, List.length_cons]
      exact Nat.succ_le_succ (ih num)
    · by_cases hmem : x r c ∈ num
      · simp only [unitGo, if_neg h0, if_pos hmem, List.length_cons, List.length_singleton]
        exact Nat.succ_le_succ (Nat.zero_le _)
      · simp only [unitGo, if_neg h0, if_neg hmem, List.length_cons]
        exact Nat.succ_le_succ (ih _)

theorem unitGo_visited_cons (x : Grid) (p : Int × Int) (rest : List (Int × Int))
    (num : List Int) :
    ∃ t, (unitGo x (p :: rest) num).visited = p :: t := by
  obtain ⟨r, c⟩ := p
  by_cases h0 : x r c = 0
  · exact ⟨(unitGo x rest num).visited, by simp only [unitGo, if_pos h0]⟩
  · by_cases hmem : x r c ∈ num
    · exact ⟨[], by simp only [unitGo, if_neg h0, if_pos hmem]⟩
    · exact ⟨(unitGo x rest (x r c :: num)).visited,
        by simp only [unitGo, if_neg h0, if_neg hmem]⟩

theorem valScan_nodup : ∀ (vs num : List Int),
    (∀ v ∈ vs, v ∉ num) → vs.Pairwise (· ≠ ·) →
    valScan vs num = (true, [], vs) := by
  intro vs
  induction vs with
  | nil => intro num _ _; rfl
  | cons v rest ih =>
    intro num hnotin hpw
    have hmem : v ∉ num := hnotin v (List.mem_cons_self _ _)
    obtain ⟨hrel, htail⟩ := List.pairwise_cons.mp hpw
    have hrec := ih (v :: num)
      (fun w hw => by
        intro hcontra
        rcases List.mem_cons.mp hcontra with h | h
        · exact hrel w hw h.symm
        · exact hnotin w (List.mem_cons_of_mem _ hw) h)
      htail
    simp only [valScan, if_neg hmem, hrec]

theorem valScan_inserted_subset : ∀ (vs num : List Int), (valScan vs num).2.2 ⊆ vs := by
  intro vs
  induction vs with
  | nil => intro num; simp [valScan]
  | cons v rest ih =>
    intro num
    by_cases hmem : v ∈ num
    · simp [valScan, if_pos hmem]
    · simp only [valScan, if_neg hmem]
      intro w hw
      rcases List.mem_cons.mp hw with h | h
      · simp [h]
      · exact List.mem_cons_of_mem _ (ih (v :: num) h)

theorem unitGo_nodup (x : Grid) : ∀ (cells : List (Int × Int)) (num : List Int),
    (∀ p ∈ cells, x p.1 p.2 ≠ 0 → x p.1 p.2 ∉ num) →
    List.Pairwise (fun p q => x p.1 p.2 ≠ 0 → x p.1 p.2 ≠ x q.1 q.2) cells →
    unitGo x cells num =
      ⟨true, [], cells, (cells.map fun p => x p.1 p.2).filter fun v => decide (v ≠ 0)⟩ := by
  intro cells
  induction cells with
  | nil => intro num _ _; rfl
  | cons q rest ih =>
    intro num hnotin hpw
    obtain ⟨r, c⟩ := q
    obtain ⟨hrel, htail⟩ := List.pairwise_cons.mp hpw
    by_cases h0 : x r c = 0
    · have hrec := ih num (fun p hp => hnotin p (List.mem_cons_of_mem _ hp)) htail
      have hd : (decide (x r c ≠ 0)) = false := by simp [h0]
      simp only [unitGo, if_pos h0, hrec, List.map_cons, List.filter_cons, hd]
      simp
    · have hmem : x r c ∉ num := hnotin (r, c) (List.mem_cons_self _ _) h0
      have hrec := ih (x r c :: num)
        (fun p hp hp0 => by
          intro hcontra
          rcases List.mem_cons.mp hcontra with h | h
          · exact hrel p hp h0 h.symm
          · exact hnotin p (List.mem_cons_of_mem _ hp) hp0 h)
        htail
      have hd : (decide (x r c ≠ 0)) = true := by simp [h0]
      simp only [unitGo, if_neg h0, if_neg hmem, hrec, List.map_cons, List.filter_cons, hd,
        if_pos]

theorem unitGo_dup (x : Grid) (p : Int × Int) :
    ∀ (cs rest : List (Int × Int)) (num : List Int),
      (∀ q ∈ cs, x q.1 q.2 ≠ 0 → x q.1 q.2 ∉ num) →
      List.Pairwise (fun q q2 => x q.1 q.2 ≠ 0 → x q.1 q.2 ≠ x q2.1 q2.2) cs →
      x p.1 p.2 ≠ 0 →
      (x p.1 p.2 ∈ num ∨ ∃ q ∈ cs, x q.1 q.2 = x p.1 p.2) →
      unitGo x (cs ++ p :: rest) num =
        ⟨false, ["dupe"], cs ++ [p],
          (cs.map fun q => x q.1 q.2).filter fun v => decide (v ≠ 0)⟩ := by
  intro cs
  induction cs with
  | nil =>
    intro rest num _ _ hp0 hdup
    have hmem : x p.1 p.2 ∈ num := by
      rcases hdup with h | ⟨q, hq, _⟩
      · exact h
      · exact absurd hq (List.not_mem_nil q)
    obtain ⟨r, c⟩ := p
    simp only [List.nil_append, unitGo, if_neg hp0, if_pos hmem]
    rfl
  | cons q cs ih =>
    intro rest num hnotin hpw hp0 hdup
    obtain ⟨r, c⟩ := q
    obtain ⟨hrel, htail⟩ := List.pairwise_cons.mp hpw
    by_cases h0 : x r c = 0
    · have hdup' : x p.1 p.2 ∈ num ∨ ∃ q ∈ cs, x q.1 q.2 = x p.1 p.2 := by
        rcases hdup with h | ⟨q', hq', heq⟩
        · exact Or.inl h
        · rcases List.mem_cons.mp hq' with h | h
          · exfalso; apply hp0; rw [← heq, h]; exact h0
          · exact Or.inr ⟨q', h, heq⟩
      have hrec := ih rest num (fun w hw => hnotin w (List.mem_cons_of_mem _ hw)) htail
        hp0 hdup'
      have hd : (decide (x r c ≠ 0)) = false := by simp [h0]
      simp only [List.cons_append, unitGo, if_pos h0, List.map_cons,
        List.filter_cons, hd]
      rw [show cs.append (p :: rest) = cs ++ p :: rest from rfl, hrec]
      simp
    · have hmem : x r c ∉ num := hnotin (r, c) (List.mem_cons_self _ _) h0
      have hdup' : x p.1 p.2 ∈ (x r c :: num) ∨ ∃ q ∈ cs, x q.1 q.2 = x p.1 p.2 := by
        rcases hdup with h | ⟨q', hq', heq⟩
        · exact Or.inl (List.mem_cons_of_mem _ h)
        · rcases List.mem_cons.mp hq' with h | h
          · rw [h] at heq
            exact Or.inl (by rw [← heq]; exact List.mem_cons_self _ _)
          · exact Or.inr ⟨q', h, heq⟩
      have hrec := ih rest (x r c :: num)
        (fun w hw hw0 => by
          intro hcontra
          rcases List.mem_cons.mp hcontra with h | h
          · exact hrel w hw h0 h.symm
          · exact hnotin w (List.mem_cons_of_mem _ hw) hw0 h)
        htail hp0 hdup'
      have hd : (decide (x r c ≠ 0)) = true := by simp [h0]
      simp only [List.cons_append, unitGo, if_neg h0, if_neg hmem, List.map_cons,
        List.filter_cons, hd, if_pos]
      rw [show cs.append (p :: rest) = cs ++ p :: rest from rfl, hrec]

theorem boxGo_spec (x : Grid) (b : Int) : ∀ (cells : List (Int × Int)) (num : List Int),
    boxGo x b cells num =
      ⟨true,
        (dupScan ((cells.filter fun p => decide (x p.1 p.2 ≠ 0 ∧ boxIdx p.1 p.2 = b)).map
            fun p => x p.1 p.2) num).flatMap (boxDupLines b),
        cells,
        insScan ((cells.filter fun p => decide (x p.1 p.2 ≠ 0 ∧ boxIdx p.1 p.2 = b)).map
            fun p => x p.1 p.2) num⟩ := by
  intro cells
  induction cells with
  | nil => intro num; rfl
  | cons q rest ih =>
    intro num
    obtain ⟨r, c⟩ := q
    by_cases h0 : x r c = 0
    · have hd : (decide (x r c ≠ 0 ∧ boxIdx r c = b)) = false := by simp [h0]
      simp only [boxGo, if_pos h0, ih num, List.filter_cons, hd]
      simp
    · by_cases hb : boxIdx r c = b
      · have hd : (decide (x r c ≠ 0 ∧ boxIdx r c = b)) = true := by simp [h0, hb]
        by_cases hmem : x r c ∈ num
        · simp only [boxGo, if_neg h0, if_pos hb, if_pos hmem, ih num, List.filter_cons, hd,
            if_pos, List.map_cons, dupScan, insScan, List.flatMap_cons]
          simp [boxDupLines]
        · simp only [boxGo, if_neg h0, if_pos hb, if_neg hmem, ih (x r c :: num),
            List.filter_cons, hd, if_pos, List.map_cons, dupScan, insScan, if_neg hmem]
      · have hd : (decide (x r c ≠ 0 ∧ boxIdx r c = b)) = false := by simp [hb]
        simp only [boxGo, if_neg h0, if_neg hb, ih num, List.filter_cons, hd]
        simp

theorem dupScan_eq_nil : ∀ (vs seen : List Int),
    (∀ v ∈ vs, v ∉ seen) → vs.Pairwise (· ≠ ·) → dupScan vs seen = [] := by
  intro vs
  induction vs with
  | nil => intro seen _ _; rfl
  | cons v rest ih =>
    intro seen hnotin hpw
    have hmem : v ∉ seen := hnotin v (List.mem_cons_self _ _)
    obtain ⟨hrel, htail⟩ := List.pairwise_cons.mp hpw
    have hrec := ih (v :: seen)
      (fun w hw => by
        intro hcontra
        rcases List.mem_cons.mp hcontra with h | h
        · exact hrel w hw h.symm
        · exact hnotin w (List.mem_cons_of_mem _ hw) h)
      htail
    simp only [dupScan, if_neg hmem, hrec]

theorem insScan_subset : ∀ (vs seen : List Int), insScan vs seen ⊆ vs := by
  intro vs
  induction vs with
  | nil => intro seen; simp [insScan]
  | cons v rest ih =>
    intro seen
    by_cases hmem : v ∈ seen
    · simp only [insScan, if_pos hmem]
      exact fun w hw => List.mem_cons_of_mem _ (ih seen hw)
    · simp only [insScan, if_neg hmem]
      intro w hw
      rcases List.mem_cons.mp hw with h | h
      · simp [h]
      · exact List.mem_cons_of_mem _ (ih (v :: seen) h)

theorem filter_box_map (x : Grid) (b : Int) : ∀ (l : List (Int × Int)),
    ((l.filter fun p => decide (x p.1 p.2 ≠ 0 ∧ boxIdx p.1 p.2 = b)).map fun p => x p.1 p.2)
      = ((l.filter fun p => decide (boxIdx p.1 p.2 = b)).map
          fun p => x p.1 p.2).filter fun v => decide (v ≠ 0) := by
  intro l
  induction l with
  | nil => rfl
  | cons q rest ih =>
    obtain ⟨r, c⟩ := q
    by_cases hb : boxIdx r c = b
    · by_cases h0 : x r c = 0
      · have hd1 : (decide (x r c ≠ 0 ∧ boxIdx r c = b)) = false := by simp [h0]
        have hd2 : (decide (boxIdx r c = b)) = true := by simp [hb]
        have hd3 : (decide (x r c ≠ 0)) = false := by simp [h0]
        simp only [List.filter_cons, hd1, hd2, if_pos, List.map_cons, hd3]
        simpa using ih
      · have hd1 : (decide (x r c ≠ 0 ∧ boxIdx r c = b)) = true := by simp [h0, hb]
        have hd2 : (decide (boxIdx r c = b)) = true := by simp [hb]
        have hd3 : (decide (x r c ≠ 0)) = true := by simp [h0]
        simp only [List.filter_cons, hd1, hd2, if_pos, List.map_cons, hd3]
        simpa using ih
    · have hd1 : (decide (x r c ≠ 0 ∧ boxIdx r c = b)) = false := by simp [hb]
      have hd2 : (decide (boxIdx r c = b)) = false := by simp [hb]
      simp only [List.filter_cons, hd1, hd2]
      simpa using ih

theorem boxGo_allCells (x : Grid) (b : Int) :
    boxGo x b allCells [] =
      ⟨true, (dupScan (boxVals x b) []).flatMap (boxDupLines b), allCells,
        insScan (boxVals x b) []⟩ := by
  have h := boxGo_spec x b allCells []
  rw [filter_box_map x b allCells] at h
  exact h

theorem check_box_ok_eq (x : Grid) : (check_box x).ok = true := rfl

theorem check_box_out_eq (x : Grid) :
    (check_box x).out =
      (List.range 9).flatMap fun n =>
        (dupScan (boxVals x (Int.ofNat n)) []).flatMap (boxDupLines (Int.ofNat n)) := by
  show ((((List.range 9).map fun n => boxGo x (Int.ofNat n) allCells []).map
    CheckResult.out)).flatten = _
  rw [List.map_map, List.flatMap]
  congr 1
  apply List.map_congr_left
  intro n _
  show (boxGo x (Int.ofNat n) allCells []).out = _
  rw [boxGo_allCells]

theorem check_box_visited_eq (x : Grid) :
    (check_box x).visited = (List.range 9).flatMap fun _ => allCells := by
  show ((((List.range 9).map fun n => boxGo x (Int.ofNat n) allCells []).map
    CheckResult.visited)).flatten = _
  rw [List.map_map, List.flatMap]
  congr 1
  apply List.map_congr_left
  intro n _
  show (boxGo x (Int.ofNat n) allCells []).visited = _
  rw [boxGo_allCells]

theorem check_box_inserted_eq (x : Grid) :
    (check_box x).inserted =
      (List.range 9).flatMap fun n => insScan (boxVals x (Int.ofNat n)) [] := by
  show ((((List.range 9).map fun n => boxGo x (Int.ofNat n) allCells []).map
    CheckResult.inserted)).flatten = _
  rw [List.map_map, List.flatMap]
  congr 1
  apply List.map_congr_left
  intro n _
  show (boxGo x (Int.ofNat n) allCells []).inserted = _
  rw [boxGo_allCells]

theorem unitGo_first_dup (x : Grid) (f : Nat → Int × Int)
    (hdup : ∃ a b2, a < b2 ∧ b2 < 9 ∧ x (f a).1 (f a).2 = x (f b2).1 (f b2).2 ∧
      x (f b2).1 (f b2).2 ≠ 0) :
    ∃ j, j < 9 ∧
      (x (f j).1 (f j).2 ≠ 0 ∧ ∃ i, i < j ∧ x (f i).1 (f i).2 = x (f j).1 (f j).2) ∧
      (∀ m, m < j →
        ¬(x (f m).1 (f m).2 ≠ 0 ∧ ∃ i, i < m ∧ x (f i).1 (f i).2 = x (f m).1 (f m).2)) ∧
      unitGo x ((List.range 9).map f) [] =
        ⟨false, ["dupe"], (List.range (j + 1)).map f,
          ((List.range j).map fun i => x (f i).1 (f i).2).filter fun v => decide (v ≠ 0)⟩ := by
  have hex : ∃ m, x (f m).1 (f m).2 ≠ 0 ∧
      ∃ i, i < m ∧ x (f i).1 (f i).2 = x (f m).1 (f m).2 := by
    obtain ⟨a, b2, hab, _, heq, hne⟩ := hdup
    exact ⟨b2, hne, a, hab, heq⟩
  obtain ⟨j, hPj, hmin⟩ := nat_exists_min hex
  have hj9 : j < 9 := by
    obtain ⟨a, b2, hab, hb9, heq, hne⟩ := hdup
    by_contra hcon
    exact hmin b2 (Nat.lt_of_lt_of_le hb9 (Nat.le_of_not_lt hcon)) ⟨hne, a, hab, heq⟩
  have hsplit : List.range 9 = List.range j ++ j :: List.range' (j + 1) (8 - j) := by
    rw [List.range_eq_range', show (9 : Nat) = (9 - j) + j by omega,
      ← List.range'_append_1 0 j (9 - j)]
    congr 1
    · exact (List.range_eq_range' j).symm
    · rw [Nat.zero_add, show 9 - j = (8 - j) + 1 by omega, List.range'_succ]
  have hpw : List.Pairwise
      (fun q q2 => x q.1 q.2 ≠ 0 → x q.1 q.2 ≠ x q2.1 q2.2) ((List.range j).map f) := by
    rw [List.pairwise_map]
    refine (List.pairwise_lt_range j).imp_of_mem ?_
    intro a b2 _ hb hlt hne0 heq
    exact hmin b2 (List.mem_range.mp hb) ⟨by rw [← heq]; exact hne0, a, hlt, heq⟩
  have hnotin : ∀ q ∈ (List.range j).map f, x q.1 q.2 ≠ 0 → x q.1 q.2 ∉ ([] : List Int) :=
    fun q _ _ => List.not_mem_nil _
  have hsrc : x (f j).1 (f j).2 ∈ ([] : List Int) ∨
      ∃ q ∈ (List.range j).map f, x q.1 q.2 = x (f j).1 (f j).2 := by
    obtain ⟨i, hij, heq⟩ := hPj.2
    exact Or.inr ⟨f i, List.mem_map_of_mem f (List.mem_range.mpr hij), heq⟩
  have hgo := unitGo_dup x (f j) ((List.range j).map f)
    ((List.range' (j + 1) (8 - j)).map f) [] hnotin hpw hPj.1 hsrc
  refine ⟨j, hj9, hPj, hmin, ?_⟩
  rw [hsplit, List.map_append, List.map_cons, hgo]
  rw [List.range_succ, List.map_append, List.map_map]
  rfl

theorem digitChar_ne_bar (n : Nat) : Nat.digitChar n ≠ '|' := by
  match n with
  | 0 | 1 | 2 | 3 | 4 | 5 | 6 | 7 | 8 | 9 | 10 | 11 | 12 | 13 | 14 | 15 => decide
  | m + 16 =>
    show Nat.digitChar (m + 16) ≠ '|'
    unfold Nat.digitChar
    repeat rw [if_neg (by omega)]
    decide

theorem toDigitsCore_ne_bar (b : Nat) : ∀ (fuel n : Nat) (ds : List Char),
    (∀ ch ∈ ds, ch ≠ '|') → ∀ ch ∈ Nat.toDigitsCore b fuel n ds, ch ≠ '|' := by
  intro fuel
  induction fuel with
  | zero =>
    intro n ds hds ch hch
    exact hds ch (by simpa [Nat.toDigitsCore] using hch)
  | succ fuel ih =>
    intro n ds hds ch hch
    simp only [Nat.toDigitsCore] at hch
    by_cases h : n / b = 0
    · rw [if_pos h] at hch
      rcases List.mem_cons.mp hch with h1 | h1
      · rw [h1]; exact digitChar_ne_bar _
      · exact hds ch h1
    · rw [if_neg h] at hch
      refine ih (n / b) (Nat.digitChar (n % b) :: ds) ?_ ch hch
      intro w hw
      rcases List.mem_cons.mp hw with h1 | h1
      · rw [h1]; exact digitChar_ne_bar _
      · exact hds w h1

theorem natRepr_ne_bar (n : Nat) : ∀ ch ∈ (Nat.repr n).data, ch ≠ '|' := by
  intro ch hch
  have hmem : ch ∈ Nat.toDigitsCore 10 (n + 1) n [] := by
    simpa [Nat.repr, Nat.toDigits, List.asString] using hch
  exact toDigitsCore_ne_bar 10 (n + 1) n [] (by simp) ch hmem

theorem toString_int_ne_bar (v : Int) : ∀ ch ∈ (toString v).data, ch ≠ '|' := by
  cases v with
  | ofNat m => exact fun ch hch => natRepr_ne_bar m ch hch
  | negSucc m =>
    intro ch hch
    have hch2 : ch ∈ ("-" ++ Nat.repr (m + 1)).data := hch
    rw [String.data_append] at hch2
    rcases List.mem_append.mp hch2 with h | h
    · have hc : ch = '-' := by simpa using h
      rw [hc]; decide
    · exact natRepr_ne_bar (m + 1) ch h

theorem barCount_toString_int (v : Int) : barCount (toString v) = 0 := by
  unfold barCount
  exact List.count_eq_zero.mpr fun hmem => toString_int_ne_bar v '|' hmem rfl

theorem barCount_append (s t : String) : barCount (s ++ t) = barCount s + barCount t := by
  unfold barCount
  rw [String.data_append, List.count_append]

theorem data_foldl_append : ∀ (l : List String) (acc : String),
    (l.foldl (fun r s => r ++ s) acc).data = acc.data ++ (l.map String.data).flatten := by
  intro l
  induction l with
  | nil => intro acc; simp
  | cons s rest ih =>
    intro acc
    simp only [List.foldl_cons, ih, List.map_cons, List.flatten_cons, String.data_append]
    rw [List.append_assoc]

theorem data_join (l : List String) : (String.join l).data = (l.map String.data).flatten := by
  have h := data_foldl_append l ""
  simpa [String.join] using h

theorem barCount_join (l : List String) : barCount (String.join l) = (l.map barCount).sum := by
  unfold barCount
  rw [data_join, List.count_flatten, List.map_map]
  rfl

theorem barCount_rowLine (x : Grid) (r : Int) : barCount (rowLine x r) = 4 := by
  rw [rowLine, barCount_join]
  rw [show rowChunks x r =
    ["| ", toString (x r 0) ++ " ", toString (x r 1) ++ " ", toString (x r 2) ++ " ",
     "| ", toString (x r 3) ++ " ", toString (x r 4) ++ " ", toString (x r 5) ++ " ",
     "| ", toString (x r 6) ++ " ", toString (x r 7) ++ " ", toString (x r 8) ++ " ",
     "|"] from rfl]
  simp only [List.map_cons, List.map_nil, barCount_append, barCount_toString_int]
  simp [show barCount "| " = 1 from rfl, show barCount " " = 0 from rfl,
    show barCount "|" = 1 from rfl]

theorem rowLine_ne_sepLine (x : Grid) (r : Int) : rowLine x r ≠ sepLine := by
  intro h
  have hd : (rowLine x r).data.head? = sepLine.data.head? := by rw [h]
  rw [rowLine, data_join] at hd
  have h1 : ((rowChunks x r).map String.data).flatten.head? = some '|' := rfl
  have h2 : sepLine.data.head? = some '-' := rfl
  rw [h1, h2] at hd
  exact absurd hd (by decide)

theorem check_row_proj (x : Grid) (r : Int) :
    ((check_row x r).ok, (check_row x r).out, (check_row x r).inserted) =
      valScan (rowNonzeroVals x r) [] := by
  have hv := unitGo_valScan x (rowCells r) []
  have hmap : ((rowCells r).map fun p => x p.1 p.2) =
      (List.range 9).map fun (cc : Nat) => x r (cc : Int) := by
    rw [rowCells, List.map_map]; rfl
  rw [hmap] at hv
  exact hv

theorem check_col_proj (x : Grid) (c : Int) :
    ((check_col x c).ok, (check_col x c).out, (check_col x c).inserted) =
      valScan (colNonzeroVals x c) [] := by
  have hv := unitGo_valScan x (colCells c) []
  have hmap : ((colCells c).map fun p => x p.1 p.2) =
      (List.range 9).map fun (rr : Nat) => x (rr : Int) c := by
    rw [colCells, List.map_map]; rfl
  rw [hmap] at hv
  exact hv

/-! ## Claim theorems -/

/-- C10: the two program variants share an identical printer — for every
9×9 grid, `print_board` of src/main.cpp and `print_board` of
src/unnamed/part_000 produce exactly the same output lines. -/
theorem print_board_variants_agree (x : Grid) : print_board_main x = print_board x := rfl

/-- C2: for every grid, `check_box` returns `true` no matter how many
duplicates the boxes contain, and its output is, box index by box index
(with the seen-set restarted empty for each box, i.e. cleared between
boxes), the two-line diagnostic naming the box index and the duplicated
value, once per duplicate detected within that single box. -/
theorem check_box_always_true_with_diags (x : Grid) :
    (check_box x).ok = true ∧
    (check_box x).out = (List.range 9).flatMap fun n =>
      (dupScan (boxVals x (Int.ofNat n)) []).flatMap (boxDupLines (Int.ofNat n)) :=
  ⟨rfl, check_box_out_eq x⟩

/-- C6: the box-index expression `(r/3)*3 + (c/3)` used by `check_box`
maps every cell of the 9×9 grid into `[0,8]`, every cell belongs to
exactly one box, and each box index has exactly 9 cells mapping to it. -/
theorem box_index_partition :
    (∀ r c : Fin 9,
      0 ≤ boxIdx (r.val : Int) (c.val : Int) ∧ boxIdx (r.val : Int) (c.val : Int) ≤ 8) ∧
    (∀ r c : Fin 9, ∃ b : Fin 9, boxIdx (r.val : Int) (c.val : Int) = (b.val : Int) ∧
      ∀ b' : Fin 9, boxIdx (r.val : Int) (c.val : Int) = (b'.val : Int) → b' = b) ∧
    (∀ b : Fin 9, (boxCells (b.val : Int)).length = 9) :=
  ⟨by decide, by decide, by decide⟩

/-- C9: the verdict and diagnostic output of `check_row` depend only on
the cells of the selected row — two grids that agree on row `k` give the
same result (including visited cells and insertion trace); symmetrically
for `check_col` and the selected column. -/
theorem check_row_col_depend_only_on_unit (x x' : Grid) (k : Int) :
    ((∀ c : Fin 9, x k (c.val : Int) = x' k (c.val : Int)) →
      check_row x k = check_row x' k) ∧
    ((∀ r : Fin 9, x (r.val : Int) k = x' (r.val : Int) k) →
      check_col x k = check_col x' k) := by
  constructor
  · intro hagree
    apply unitGo_congr
    intro p hp
    rw [rowCells] at hp
    obtain ⟨cc, hcc, hpc⟩ := List.mem_map.mp hp
    rw [← hpc]
    exact hagree ⟨cc, List.mem_range.mp hcc⟩
  · intro hagree
    apply unitGo_congr
    intro p hp
    rw [colCells] at hp
    obtain ⟨rr, hrr, hpc⟩ := List.mem_map.mp hp
    rw [← hpc]
    exact hagree ⟨rr, List.mem_range.mp hrr⟩

theorem check_row_col_depend_only_on_unit_witness :
    check_row board 0 = check_row rowOnlyBoard 0 ∧
    check_col board 0 = check_col colOnlyBoard 0 :=
  ⟨(check_row_col_depend_only_on_unit board rowOnlyBoard 0).1 (by decide),
   (check_row_col_depend_only_on_unit board colOnlyBoard 0).2 (by decide)⟩

set_option maxRecDepth 8000 in
/-- C5 (amended): every checker call terminates; `check_row` and
`check_col` each perform at most 9 cell visits, while `check_box`
performs exactly 729 cell visits in one call (81 per box index, once per
each of the 9 box indices), all of them to cells of the 9×9 grid — so it
touches at most 81 distinct cells. -/
theorem checker_cell_visit_bounds (x : Grid) (r c : Int) :
    (check_row x r).visited.length ≤ 9 ∧
    (check_col x c).visited.length ≤ 9 ∧
    (check_box x).visited.length = 729 ∧
    ∀ p ∈ (check_box x).visited, p ∈ allCells := by
  refine ⟨?_, ?_, ?_, ?_⟩
  · have h := unitGo_visited_length x (rowCells r) []
    simpa [rowCells] using h
  · have h := unitGo_visited_length x (colCells c) []
    simpa [colCells] using h
  · rw [check_box_visited_eq]; decide
  · rw [check_box_visited_eq]
    intro p hp
    obtain ⟨n, _, hpa⟩ := List.mem_flatMap.mp hp
    exact hpa

set_option maxRecDepth 8000 in
/-- C5 (counterexample): on the all-zero grid `check_box` performs 729
cell visits in a single call, not at most 81. -/
theorem check_box_visits_exceed_81 :
    (check_box zeroGrid).visited.length = 729 ∧
    ¬((check_box zeroGrid).visited.length ≤ 81) := by
  have h : (check_box zeroGrid).visited.length = 729 := by
    rw [check_box_visited_eq]; decide
  exact ⟨h, by rw [h]; decide⟩

/-- C8: for every grid, `print_board` writes exactly 4 separator lines of
dashes — before rows 0, 3, 6 and one after row 8, in that order — and
exactly 9 content lines, one per grid row in order, each containing
exactly 4 vertical-bar characters (before columns 0, 3, 6 plus the
closing bar at line end). -/
theorem print_board_layout (x : Grid) :
    print_board x =
      [sepLine, rowLine x 0, rowLine x 1, rowLine x 2,
       sepLine, rowLine x 3, rowLine x 4, rowLine x 5,
       sepLine, rowLine x 6, rowLine x 7, rowLine x 8,
       sepLine] ∧
    (print_board x).length = 13 ∧
    (print_board x).count sepLine = 4 ∧
    ∀ r : Int, barCount (rowLine x r) = 4 ∧ rowLine x r ≠ sepLine := by
  have hexp : print_board x =
      [sepLine, rowLine x 0, rowLine x 1, rowLine x 2,
       sepLine, rowLine x 3, rowLine x 4, rowLine x 5,
       sepLine, rowLine x 6, rowLine x 7, rowLine x 8,
       sepLine] := rfl
  refine ⟨hexp, by rw [hexp]; rfl, ?_,
    fun r => ⟨barCount_rowLine x r, rowLine_ne_sepLine x r⟩⟩
  rw [hexp]
  have hb : ∀ rr : Int, (rowLine x rr == sepLine) = false :=
    fun rr => beq_eq_false_iff_ne.mpr (rowLine_ne_sepLine x rr)
  simp [List.count_cons, hb]

/-- C3: a unit in which every non-zero value occurs at most once passes
its check with no diagnostic: `check_row` (resp. `check_col`) returns
`true` with empty output when the row's (column's) non-zero values are
pairwise distinct, and `check_box` — whose result is `true` for every
grid, its output being the concatenation of the per-box diagnostics —
emits no diagnostic for a box whose non-zero values are pairwise
distinct. -/
theorem checks_pass_on_valid_units (x : Grid) (k : Int) (b : Fin 9) :
    ((rowNonzeroVals x k).Pairwise (· ≠ ·) →
      (check_row x k).ok = true ∧ (check_row x k).out = []) ∧
    ((colNonzeroVals x k).Pairwise (· ≠ ·) →
      (check_col x k).ok = true ∧ (check_col x k).out = []) ∧
    (check_box x).ok = true ∧
    (check_box x).out = ((List.range 9).map fun n => boxOut x (Int.ofNat n)).flatten ∧
    ((boxVals x (b.val : Int)).Pairwise (· ≠ ·) → boxOut x (b.val : Int) = []) := by
  refine ⟨?_, ?_, rfl, ?_, ?_⟩
  · intro hpw
    have hv := check_row_proj x k
    rw [valScan_nodup (rowNonzeroVals x k) [] (fun v _ => List.not_mem_nil v) hpw] at hv
    exact ⟨congrArg (fun t => t.1) hv, congrArg (fun t => t.2.1) hv⟩
  · intro hpw
    have hv := check_col_proj x k
    rw [valScan_nodup (colNonzeroVals x k) [] (fun v _ => List.not_mem_nil v) hpw] at hv
    exact ⟨congrArg (fun t => t.1) hv, congrArg (fun t => t.2.1) hv⟩
  · show (((List.range 9).map fun n => boxGo x (Int.ofNat n) allCells []).map
      CheckResult.out).flatten = _
    rw [List.map_map]
    rfl
  · intro hpw
    show (boxGo x (b.val : Int) allCells []).out = []
    rw [boxGo_allCells,
      dupScan_eq_nil (boxVals x (b.val : Int)) [] (fun v _ => List.not_mem_nil v) hpw]
    rfl

theorem checks_pass_on_valid_units_witness :
    ((check_row zeroGrid 0).ok = true ∧ (check_row zeroGrid 0).out = []) ∧
    ((check_col zeroGrid 0).ok = true ∧ (check_col zeroGrid 0).out = []) ∧
    boxOut zeroGrid 0 = [] := by
  refine ⟨(checks_pass_on_valid_units zeroGrid 0 0).1 (by decide),
    (checks_pass_on_valid_units zeroGrid 0 0).2.1 (by decide), ?_⟩
  exact (checks_pass_on_valid_units zeroGrid 0 0).2.2.2.2 (by decide)

/-- C4: zeros never count toward a duplicate in any checker — the
verdict, diagnostics and insertion trace of `check_row`/`check_col`
depend only on the sequence of non-zero values of the unit (so no number
of zeros causes a `false` or a diagnostic), the per-box diagnostics of
`check_box` depend only on the box's non-zero values, and the value 0 is
never inserted into any checker's seen-set. -/
theorem zeros_never_count (x x' : Grid) (r r' c c' : Int) (b : Fin 9) :
    (rowNonzeroVals x r = rowNonzeroVals x' r' →
      (check_row x r).ok = (check_row x' r').ok ∧
      (check_row x r).out = (check_row x' r').out ∧
      (check_row x r).inserted = (check_row x' r').inserted) ∧
    (colNonzeroVals x c = colNonzeroVals x' c' →
      (check_col x c).ok = (check_col x' c').ok ∧
      (check_col x c).out = (check_col x' c').out ∧
      (check_col x c).inserted = (check_col x' c').inserted) ∧
    (boxVals x (b.val : Int) = boxVals x' (b.val : Int) →
      boxOut x (b.val : Int) = boxOut x' (b.val : Int)) ∧
    (0 : Int) ∉ (check_row x r).inserted ∧
    (0 : Int) ∉ (check_col x c).inserted ∧
    (0 : Int) ∉ (check_box x).inserted := by
  refine ⟨?_, ?_, ?_, ?_, ?_, ?_⟩
  · intro heq
    have h1 := check_row_proj x r
    have h2 := check_row_proj x' r'
    rw [heq] at h1
    have h3 := h1.trans h2.symm
    exact ⟨congrArg (fun t => t.1) h3, congrArg (fun t => t.2.1) h3,
      congrArg (fun t => t.2.2) h3⟩
  · intro heq
    have h1 := check_col_proj x c
    have h2 := check_col_proj x' c'
    rw [heq] at h1
    have h3 := h1.trans h2.symm
    exact ⟨congrArg (fun t => t.1) h3, congrArg (fun t => t.2.1) h3,
      congrArg (fun t => t.2.2) h3⟩
  · intro heq
    show (boxGo x (b.val : Int) allCells []).out = (boxGo x' (b.val : Int) allCells []).out
    rw [boxGo_allCells, boxGo_allCells, heq]
  · intro hmem
    have h1 := congrArg (fun t => t.2.2) (check_row_proj x r)
    simp only at h1
    rw [h1] at hmem
    have h2 := valScan_inserted_subset (rowNonzeroVals x r) [] hmem
    simp [rowNonzeroVals] at h2
  · intro hmem
    have h1 := congrArg (fun t => t.2.2) (check_col_proj x c)
    simp only at h1
    rw [h1] at hmem
    have h2 := valScan_inserted_subset (colNonzeroVals x c) [] hmem
    simp [colNonzeroVals] at h2
  · intro hmem
    rw [check_box_inserted_eq] at hmem
    obtain ⟨n, _, hn⟩ := List.mem_flatMap.mp hmem
    have h2 := insScan_subset (boxVals x (Int.ofNat n)) [] hn
    simp [boxVals] at h2

theorem zeros_never_count_witness :
    (check_row board 8).out = (check_row oneAtRow0Col3 0).out ∧
    (check_col board 8).out = (check_col oneAtRow0Col3 3).out ∧
    boxOut board 8 = boxOut oneAtRow0Col3 8 ∧
    (0 : Int) ∉ (check_box board).inserted := by
  have h := zeros_never_count board oneAtRow0Col3 8 0 8 3 8
  exact ⟨(h.1 (by decide)).2.1, (h.2.1 (by decide)).2.1, h.2.2.1 (by decide),
    h.2.2.2.2.2⟩

/-- C7: `check_row` and `check_col` perform no bounds check on their
index argument: when the index is in `[0,8]` every cell they read lies
inside the 9×9 array, and for any index outside `[0,8]` they read an
out-of-range cell (the undefined-behaviour access of the C code, here the
first cell read) instead of reporting an error. -/
theorem unchecked_index_access (x : Grid) (k : Int) :
    ((0 ≤ k ∧ k < 9) →
      (∀ p ∈ (check_row x k).visited, inBounds p) ∧
      (∀ p ∈ (check_col x k).visited, inBounds p)) ∧
    (¬(0 ≤ k ∧ k < 9) →
      (∃ p ∈ (check_row x k).visited, ¬ inBounds p) ∧
      (∃ p ∈ (check_col x k).visited, ¬ inBounds p)) := by
  constructor
  · rintro ⟨hk0, hk9⟩
    constructor
    · intro p hp
      have hmem := unitGo_visited_subset x (rowCells k) [] p hp
      rw [rowCells] at hmem
      obtain ⟨cc, hcc, hpc⟩ := List.mem_map.mp hmem
      have hcc9 : cc < 9 := List.mem_range.mp hcc
      rw [← hpc]
      refine ⟨hk0, hk9, Int.natCast_nonneg cc, ?_⟩
      show ((cc : Nat) : Int) < 9
      exact_mod_cast hcc9
    · intro p hp
      have hmem := unitGo_visited_subset x (colCells k) [] p hp
      rw [colCells] at hmem
      obtain ⟨rr, hrr, hpc⟩ := List.mem_map.mp hmem
      have hrr9 : rr < 9 := List.mem_range.mp hrr
      rw [← hpc]
      refine ⟨Int.natCast_nonneg rr, ?_, hk0, hk9⟩
      show ((rr : Nat) : Int) < 9
      exact_mod_cast hrr9
  · intro hk
    constructor
    · have hrow : rowCells k =
          (k, (0 : Int)) :: [(k, 1), (k, 2), (k, 3), (k, 4), (k, 5), (k, 6), (k, 7),
            (k, 8)] := rfl
      have hv : ∃ t, (check_row x k).visited = (k, (0 : Int)) :: t := by
        show ∃ t, (unitGo x (rowCells k) []).visited = _
        rw [hrow]
        exact unitGo_visited_cons x _ _ []
      obtain ⟨t, ht⟩ := hv
      refine ⟨(k, (0 : Int)), by rw [ht]; exact List.mem_cons_self _ _, ?_⟩
      intro hin
      exact hk ⟨hin.1, hin.2.1⟩
    · have hcol : colCells k =
          ((0 : Int), k) :: [(1, k), (2, k), (3, k), (4, k), (5, k), (6, k), (7, k),
            (8, k)] := rfl
      have hv : ∃ t, (check_col x k).visited = ((0 : Int), k) :: t := by
        show ∃ t, (unitGo x (colCells k) []).visited = _
        rw [hcol]
        exact unitGo_visited_cons x _ _ []
      obtain ⟨t, ht⟩ := hv
      refine ⟨((0 : Int), k), by rw [ht]; exact List.mem_cons_self _ _, ?_⟩
      intro hin
      exact hk ⟨hin.2.2.1, hin.2.2.2⟩

theorem unchecked_index_access_witness :
    (∀ p ∈ (check_row board 0).visited, inBounds p) ∧
    (∃ p ∈ (check_row board 9).visited, ¬ inBounds p) ∧
    (∃ p ∈ (check_col board (-1)).visited, ¬ inBounds p) := by
  refine ⟨((unchecked_index_access board 0).1 ⟨by decide, by decide⟩).1, ?_, ?_⟩
  · exact ((unchecked_index_access board 9).2 (by decide)).1
  · exact ((unchecked_index_access board (-1)).2 (by decide)).2

/-- C1: for every grid and row index in `[0,8]` whose row contains two or
more identical non-zero values, `check_row` returns `false` and emits
exactly the single diagnostic line `dupe`, at the first duplicate
position `j` in left-to-right scan order, stopping immediately at that
cell (the visited cells are exactly columns `0..j`); `check_col` behaves
identically for a fixed column index, scanning top to bottom. -/
theorem check_row_col_first_dup (x : Grid) (k : Int) (hk : 0 ≤ k ∧ k < 9) :
    ((∃ c1 c2 : Fin 9, c1 < c2 ∧ x k (c1.val : Int) = x k (c2.val : Int) ∧
        x k (c2.val : Int) ≠ 0) →
      ∃ j, j < 9 ∧ dupAtRow x k j ∧ (∀ m, m < j → ¬ dupAtRow x k m) ∧
        check_row x k =
          ⟨false, ["dupe"], (List.range (j + 1)).map fun (cc : Nat) => (k, (cc : Int)),
            ((List.range j).map fun (cc : Nat) => x k (cc : Int)).filter
              fun v => decide (v ≠ 0)⟩) ∧
    ((∃ r1 r2 : Fin 9, r1 < r2 ∧ x (r1.val : Int) k = x (r2.val : Int) k ∧
        x (r2.val : Int) k ≠ 0) →
      ∃ j, j < 9 ∧ dupAtCol x k j ∧ (∀ m, m < j → ¬ dupAtCol x k m) ∧
        check_col x k =
          ⟨false, ["dupe"], (List.range (j + 1)).map fun (rr : Nat) => ((rr : Int), k),
            ((List.range j).map fun (rr : Nat) => x (rr : Int) k).filter
              fun v => decide (v ≠ 0)⟩) := by
  constructor
  · intro hdup
    obtain ⟨c1, c2, hlt, heq, hne⟩ := hdup
    obtain ⟨j, hj9, hPj, hmin, hgo⟩ :=
      unitGo_first_dup x (fun (cc : Nat) => (k, (cc : Int)))
        ⟨c1.val, c2.val, hlt, c2.isLt, heq, hne⟩
    exact ⟨j, hj9, hPj, hmin, hgo⟩
  · intro hdup
    obtain ⟨r1, r2, hlt, heq, hne⟩ := hdup
    obtain ⟨j, hj9, hPj, hmin, hgo⟩ :=
      unitGo_first_dup x (fun (rr : Nat) => ((rr : Int), k))
        ⟨r1.val, r2.val, hlt, r2.isLt, heq, hne⟩
    exact ⟨j, hj9, hPj, hmin, hgo⟩

theorem check_row_col_first_dup_witness :
    (check_row board 0).ok = false ∧ (check_row board 0).out = ["dupe"] ∧
    (check_col board 0).ok = false ∧ (check_col board 0).out = ["dupe"] := by
  obtain ⟨hrow, hcol⟩ := check_row_col_first_dup board 0 ⟨by decide, by decide⟩
  obtain ⟨j, _, _, _, hr⟩ := hrow ⟨0, 8, by decide, by decide, by decide⟩
  obtain ⟨j2, _, _, _, hc⟩ := hcol ⟨0, 8, by decide, by decide, by decide⟩
  rw [hr, hc]
  exact ⟨rfl, rfl, rfl, rfl⟩
